import Mathlib

/-!
Shallow embedding of the todo task service: the sqlite persistence layer
(database.js: getAllTasks, addTask, deleteTask, updateTask,
toggleTaskCompletion, reorderTasks) and the express handler layer
(server.js: validation, authentication, task routes), translated from the
JavaScript source.  Machine integers are modelled as Nat/Int, JS
`undefined` as the outer `none` of an `Option`, JS `null` as the inner
`none` of an `Option (Option _)` where the distinction matters.
-/

/-- Whitespace test backing the model of JS String.prototype.trim
(restricted to common whitespace characters; only the space character is
exercised by the theorems). -/
def isJsWs (c : Char) : Bool :=
  c == ' ' || c == '\t' || c == '\n' || c == '\r' || c == '\x0b' || c == '\x0c'

/-- Drop leading whitespace from a character list. -/
def trimLeft (l : List Char) : List Char := l.dropWhile isJsWs

/-- Drop trailing whitespace from a character list. -/
def trimRight (l : List Char) : List Char := (trimLeft l.reverse).reverse

/-- Model of JS String.prototype.trim on character lists. -/
def jsTrimL (l : List Char) : List Char := trimRight (trimLeft l)

/-- Model of JS String.prototype.trim. -/
def jsTrim (s : String) : String := ⟨jsTrimL s.data⟩

theorem trimLeft_idem (l : List Char) : trimLeft (trimLeft l) = trimLeft l := by
  induction l with
  | nil => rfl
  | cons a l ih =>
    by_cases h : isJsWs a
    · simpa [trimLeft, List.dropWhile, h] using ih
    · simp [trimLeft, List.dropWhile, h]

theorem trimRight_idem (l : List Char) : trimRight (trimRight l) = trimRight l := by
  simp [trimRight, trimLeft_idem]

/-- The head of a list (if any) is not whitespace. -/
def headOk : List Char → Prop
  | [] => True
  | c :: _ => isJsWs c = false

theorem headOk_trimLeft (l : List Char) : headOk (trimLeft l) := by
  induction l with
  | nil => trivial
  | cons a l ih =>
    by_cases h : isJsWs a
    · simpa [trimLeft, List.dropWhile, h] using ih
    · have hf : isJsWs a = false := by simpa using h
      have ht : trimLeft (a :: l) = a :: l := by simp [trimLeft, List.dropWhile, hf]
      rw [ht]; exact hf

theorem trimLeft_eq_self (l : List Char) (h : headOk l) : trimLeft l = l := by
  cases l with
  | nil => rfl
  | cons a l => simp only [headOk] at h; simp [trimLeft, List.dropWhile, h]

theorem trimRight_prefix (l : List Char) : ∃ w, l = trimRight l ++ w := by
  refine ⟨(l.reverse.takeWhile isJsWs).reverse, ?_⟩
  rw [trimRight, trimLeft, ← List.reverse_append, List.takeWhile_append_dropWhile,
    List.reverse_reverse]

theorem headOk_trimRight (l : List Char) (h : headOk l) : headOk (trimRight l) := by
  obtain ⟨w, hw⟩ := trimRight_prefix l
  cases hr : trimRight l with
  | nil => trivial
  | cons c t =>
    rw [hr] at hw
    cases l with
    | nil => simp at hw
    | cons a l =>
      simp only [List.cons_append, List.cons.injEq] at hw
      simp only [headOk] at h ⊢
      rw [← hw.1]; exact h

theorem jsTrimL_idem (l : List Char) : jsTrimL (jsTrimL l) = jsTrimL l := by
  show trimRight (trimLeft (trimRight (trimLeft l))) = trimRight (trimLeft l)
  have h1 : headOk (trimRight (trimLeft l)) :=
    headOk_trimRight _ (headOk_trimLeft l)
  rw [trimLeft_eq_self _ h1, trimRight_idem]

theorem jsTrim_idem (s : String) : jsTrim (jsTrim s) = jsTrim s :=
  congrArg String.mk (jsTrimL_idem s.data)

namespace Todo

/-- A row of the sqlite tasks table.  created_at (a DATETIME assigned at
insertion) is modelled by the monotone insertion counter. -/
structure Task where
  id : Nat
  text : String
  priority : String
  due_date : Option String
  category : Option String
  completed : Bool
  sort_order : Int
  user_id : Nat
  created_at : Nat
deriving DecidableEq

/-- The tasks table plus the AUTOINCREMENT id counter. -/
structure DB where
  tasks : List Task
  nextId : Nat
deriving DecidableEq

def DB.init : DB := ⟨[], 1⟩

/-- Substring test on character lists (an infix occurrence exists). -/
def containsSub (pat : List Char) : List Char → Bool
  | [] => pat.isEmpty
  | c :: rest => pat.isPrefixOf (c :: rest) || containsSub pat rest

/-- Case-insensitive substring match, modelling the SQL condition
text LIKE escaped-pattern with wildcards on both ends. -/
def likeMatch (pat text : String) : Bool :=
  containsSub (pat.data.map Char.toLower) (text.data.map Char.toLower)

/-- The WHERE clause built by getAllTasks: user_id always, text LIKE when a
search string is given (JS falsy check: empty string means no condition),
category equality when a category filter is given. -/
def taskFilter (uid : Nat) (search cat : Option String) (t : Task) : Bool :=
  t.user_id == uid &&
  (match search with
   | none => true
   | some q => if q = "" then true else likeMatch q t.text) &&
  (match cat with
   | none => true
   | some c => if c = "" then true else t.category == some c)

def boolNat (b : Bool) : Nat := if b then 1 else 0

/-- The CASE expression of the priority sort: high gives 1, medium 2, low 3,
anything else 2. -/
def priorityRank (p : String) : Nat :=
  if p == "high" then 1 else if p == "medium" then 2 else if p == "low" then 3 else 2

/-- ORDER BY completed ASC, sort_order ASC. -/
def manualLe (a b : Task) : Prop :=
  boolNat a.completed < boolNat b.completed ∨
    (boolNat a.completed = boolNat b.completed ∧ a.sort_order ≤ b.sort_order)

/-- ORDER BY completed ASC, CASE priority ... END, created_at. -/
def priorityLe (a b : Task) : Prop :=
  boolNat a.completed < boolNat b.completed ∨
    (boolNat a.completed = boolNat b.completed ∧
      (priorityRank a.priority < priorityRank b.priority ∨
        (priorityRank a.priority = priorityRank b.priority ∧
          a.created_at ≤ b.created_at)))

/-- The ORDER BY clause selected by the sortBy argument of getAllTasks. -/
def taskOrder (sortBy : String) (a b : Task) : Prop :=
  if sortBy = "manual" then manualLe a b else priorityLe a b

instance : DecidableRel manualLe := fun a b => by unfold manualLe; infer_instance

instance : DecidableRel priorityLe := fun a b => by unfold priorityLe; infer_instance

instance (s : String) : DecidableRel (taskOrder s) := fun a b => by
  unfold taskOrder; split <;> infer_instance

instance : IsTotal Task manualLe :=
  ⟨fun a b => by unfold manualLe; omega⟩

instance : IsTrans Task manualLe :=
  ⟨fun a b c hab hbc => by unfold manualLe at *; omega⟩

instance : IsTotal Task priorityLe :=
  ⟨fun a b => by unfold priorityLe; omega⟩

instance : IsTrans Task priorityLe :=
  ⟨fun a b c hab hbc => by unfold priorityLe at *; omega⟩

instance (s : String) : IsTotal Task (taskOrder s) :=
  ⟨fun a b => by unfold taskOrder; split <;> exact total_of _ a b⟩

instance (s : String) : IsTrans Task (taskOrder s) :=
  ⟨fun a b c hab hbc => by
    unfold taskOrder at *
    by_cases h : s = "manual"
    · simp only [if_pos h] at hab hbc ⊢; exact IsTrans.trans _ _ _ hab hbc
    · simp only [if_neg h] at hab hbc ⊢; exact IsTrans.trans _ _ _ hab hbc⟩

/-- getAllTasks(userId, searchQuery, categoryFilter, sortBy): SELECT with the
user/search/category conditions, the selected ORDER BY, and LIMIT 1000. -/
def getAllTasks (db : DB) (uid : Nat) (search cat : Option String)
    (sortBy : String) : List Task :=
  (((db.tasks.filter (taskFilter uid search cat)).insertionSort
    (taskOrder sortBy)).take 1000)

/-- SELECT MAX(sort_order) FROM tasks WHERE user_id = ? (none when the user
has no rows, like the SQL NULL). -/
def DB.maxSort (db : DB) (uid : Nat) : Option Int :=
  ((db.tasks.filter (fun t => t.user_id == uid)).map (fun t => t.sort_order)).max?

/-- addTask(text, userId, priority, dueDate, category): computes the next
sort_order as (max sort_order for the user, or 0) + 1, inserts the row with
completed = 0, and resolves the generated id (this.lastID). -/
def addTask (db : DB) (text : String) (uid : Nat) (priority : String)
    (dueDate : Option String) (category : Option String) : DB × Nat :=
  let nextSort : Int := (db.maxSort uid).getD 0 + 1
  let t : Task :=
    { id := db.nextId, text := text, priority := priority, due_date := dueDate,
      category := category, completed := false, sort_order := nextSort,
      user_id := uid, created_at := db.nextId }
  ({ tasks := db.tasks ++ [t], nextId := db.nextId + 1 }, db.nextId)

/-- DELETE FROM tasks WHERE id = ? AND user_id = ?; resolves this.changes > 0. -/
def deleteTask (db : DB) (id uid : Nat) : DB × Bool :=
  (⟨db.tasks.filter (fun t => !(t.id == id && t.user_id == uid)), db.nextId⟩,
   db.tasks.any (fun t => t.id == id && t.user_id == uid))

/-- updateTask(id, userId, text, priority, dueDate, category, completed):
text is always written; each of the other columns is written only when its
argument is defined (outer some); resolves this.changes > 0. -/
def updateTask (db : DB) (id uid : Nat) (text : String)
    (priority : Option String) (dueDate : Option (Option String))
    (category : Option (Option String)) (completed : Option Bool) : DB × Bool :=
  (⟨db.tasks.map (fun t =>
      if t.id == id && t.user_id == uid then
        { t with text := text,
                 priority := priority.getD t.priority,
                 due_date := dueDate.getD t.due_date,
                 category := category.getD t.category,
                 completed := completed.getD t.completed }
      else t), db.nextId⟩,
   db.tasks.any (fun t => t.id == id && t.user_id == uid))

/-- UPDATE tasks SET completed = 1 - completed WHERE id = ? AND user_id = ?. -/
def toggleTaskCompletion (db : DB) (id uid : Nat) : DB × Bool :=
  (⟨db.tasks.map (fun t =>
      if t.id == id && t.user_id == uid then { t with completed := !t.completed }
      else t), db.nextId⟩,
   db.tasks.any (fun t => t.id == id && t.user_id == uid))

/-- reorderTasks(taskOrders): one UPDATE tasks SET sort_order = ? WHERE id = ?
per entry, inside a single transaction.  An entry whose id matches no row is a
zero-row update, not an error, so with well-typed entries the transaction
always commits; the WHERE clause is not scoped to any user. -/
def reorderTasks (db : DB) (orders : List (Int × Int)) : DB :=
  orders.foldl (fun d o =>
    ⟨d.tasks.map (fun t =>
      if (t.id : Int) == o.1 then { t with sort_order := o.2 } else t),
     d.nextId⟩) db


/-- Model of the JS expression a || b on optional strings (empty string is
falsy). -/
def jsOr (a b : Option String) : Option String :=
  match a with
  | some s => if s = "" then b else some s
  | none => b

/-- Model of the JS expression category?.trim() || null: undefined and null
become null, a string is trimmed and empty becomes null. -/
def jsCat (category : Option (Option String)) : Option String :=
  match category with
  | some (some c) => if jsTrim c = "" then none else some (jsTrim c)
  | _ => none

/-- Collapse undefined and null to a SQL NULL, keeping any string. -/
def jsFlat (v : Option (Option String)) : Option String :=
  match v with
  | some (some d) => some d
  | _ => none

/-- The value of v when truthy (the JS expression v || null). -/
def jsTruthy (v : Option (Option String)) : Option String :=
  match v with
  | some (some d) => if d = "" then none else some d
  | _ => none

/-- The task-text validation shared by POST /tasks and PUT /tasks/:id:
required (JS falsy check, so the empty string also hits the required
branch), non-empty after trimming, trimmed length at most 200. -/
def validateTextStr (t : String) : List String :=
  if t = "" then ["Task text is required"]
  else if jsTrim t = "" then ["Task text cannot be empty"]
  else if (jsTrim t).length > 200 then ["Task text cannot exceed 200 characters"]
  else []

def validateText (text : Option String) : List String :=
  match text with
  | none => ["Task text is required"]
  | some t => validateTextStr t

def validPriority (p : String) : Bool :=
  p == "high" || p == "medium" || p == "low"

/-- Validation of POST /tasks: text rules; priority (after the default
medium) must be high, medium or low; a truthy due_date must parse as a date
(Date.parse is the uninterpreted parameter dateOk); a truthy category is at
most 50 characters.  All violations are collected. -/
def postValidate (dateOk : String → Bool) (text priority : Option String)
    (due_date category : Option (Option String)) : List String :=
  validateText text
  ++ (if validPriority (priority.getD "medium") then []
      else ["Priority must be one of: high, medium, low"])
  ++ (match jsTruthy due_date with
      | some d => if dateOk d then []
                  else ["Due date must be in valid date format (YYYY-MM-DD)"]
      | none => [])
  ++ (match jsTruthy category with
      | some c => if c.length > 50 then ["Category cannot exceed 50 characters"]
                  else []
      | none => [])

/-- Validation of PUT /tasks/:id (and the legacy index route): like the POST
validation, except that priority is only checked when supplied, and the
due_date and category checks fire on any non-null supplied value (no
truthiness shortcut). -/
def putValidate (dateOk : String → Bool) (taskText priority : Option String)
    (due_date category : Option (Option String)) : List String :=
  validateText taskText
  ++ (match priority with
      | some p => if validPriority p then []
                  else ["Priority must be one of: high, medium, low"]
      | none => [])
  ++ (match due_date with
      | some (some d) => if dateOk d then []
                         else ["Due date must be in valid date format (YYYY-MM-DD)"]
      | _ => [])
  ++ (match category with
      | some (some c) => if c.length > 50 then ["Category cannot exceed 50 characters"]
                         else []
      | _ => [])

/-- The task JSON object the create and update routes put in their response
bodies. -/
structure CreatedBody where
  id : Nat
  text : String
  priority : String
  due_date : Option String
  category : Option String
  completed : Bool
deriving DecidableEq

inductive PostResp where
  | invalid (errors : List String)
  | created (body : CreatedBody)
deriving DecidableEq

inductive PutResp where
  | invalid (errors : List String)
  | notFound
  | ok (body : CreatedBody)
deriving DecidableEq

inductive SimpleResp where
  | invalid (errors : List String)
  | notFound
  | noContent
  | okMsg (msg : String)
deriving DecidableEq

inductive BulkResp where
  | invalid (errors : List String)
  | okDeleted (n : Nat)
  | okUpdated (n : Nat)
deriving DecidableEq

/-- POST /tasks: validate, then addTask(text.trim(), userId, priority,
due_date, category?.trim() || null) and answer 201 with a body built from the
request values. -/
def postTask (dateOk : String → Bool) (db : DB) (uid : Nat)
    (text priority : Option String) (due_date category : Option (Option String)) :
    DB × PostResp :=
  let errs := postValidate dateOk text priority due_date category
  if errs = [] then
    let p := addTask db (jsTrim (text.getD "")) uid (priority.getD "medium")
      (jsFlat due_date) (jsCat category)
    (p.1, .created
      { id := p.2, text := jsTrim (text.getD ""),
        priority := priority.getD "medium", due_date := jsTruthy due_date,
        category := jsCat category, completed := false })
  else (db, .invalid errs)

/-- PUT /tasks/:id: validate, then updateTask(id, userId, taskText.trim(),
priority, due_date, category?.trim() || null, completed); answers 200 with a
body built from the request values (priority || medium, due_date || null,
completed || false), or 404 when no row matched. -/
def putTaskById (dateOk : String → Bool) (db : DB) (uid id : Nat)
    (text task priority : Option String) (due_date category : Option (Option String))
    (completed : Option Bool) : DB × PutResp :=
  let taskText := jsOr text task
  let errs := putValidate dateOk taskText priority due_date category
  if errs = [] then
    let tt := jsTrim (taskText.getD "")
    let p := updateTask db id uid tt priority due_date (some (jsCat category)) completed
    if p.2 then
      (p.1, .ok
        { id := id, text := tt, priority := priority.getD "medium",
          due_date := jsTruthy due_date, category := jsCat category,
          completed := completed.getD false })
    else (p.1, .notFound)
  else (db, .invalid errs)

/-- PATCH /tasks/:id: with completed supplied, re-fetch the user task list,
find the task by id and rewrite it via updateTask with its own stored fields
and the new completed; with completed omitted, toggleTaskCompletion. -/
def patchTaskById (db : DB) (uid id : Nat) (completed : Option Bool) :
    DB × SimpleResp :=
  match completed with
  | some b =>
    let fetched := getAllTasks db uid none none "priority"
    match fetched.find? (fun t => t.id == id) with
    | none => (db, .notFound)
    | some t0 =>
      let p := updateTask db id uid t0.text (some t0.priority) (some t0.due_date)
        (some t0.category) (some b)
      if p.2 then (p.1, .noContent) else (p.1, .notFound)
  | none =>
    let p := toggleTaskCompletion db id uid
    if p.2 then (p.1, .noContent) else (p.1, .notFound)

/-- Legacy PUT /tasks/:index: range check against the freshly fetched
default-ordered list, then the PUT validation, then updateTask against the id
resolved from the index. -/
def putTaskByIndex (dateOk : String → Bool) (db : DB) (uid idx : Nat)
    (text task priority : Option String) (due_date category : Option (Option String))
    (completed : Option Bool) : DB × SimpleResp :=
  let fetched := getAllTasks db uid none none "priority"
  if h : idx < fetched.length then
    let taskText := jsOr text task
    let errs := putValidate dateOk taskText priority due_date category
    if errs = [] then
      let p := updateTask db (fetched.get ⟨idx, h⟩).id uid
        (jsTrim (taskText.getD "")) priority due_date (some (jsCat category)) completed
      if p.2 then (p.1, .okMsg "Task updated successfully") else (p.1, .notFound)
    else (db, .invalid errs)
  else (db, .invalid ["Index is out of range"])

/-- Legacy PATCH /tasks/:index/toggle. -/
def toggleTaskByIndex (db : DB) (uid idx : Nat) : DB × SimpleResp :=
  let fetched := getAllTasks db uid none none "priority"
  if h : idx < fetched.length then
    let p := toggleTaskCompletion db (fetched.get ⟨idx, h⟩).id uid
    if p.2 then (p.1, .okMsg "Task completion toggled successfully")
    else (p.1, .notFound)
  else (db, .invalid ["Index is out of range"])

/-- Legacy DELETE /tasks/:index. -/
def deleteTaskByIndex (db : DB) (uid idx : Nat) : DB × SimpleResp :=
  let fetched := getAllTasks db uid none none "priority"
  if h : idx < fetched.length then
    let p := deleteTask db (fetched.get ⟨idx, h⟩).id uid
    if p.2 then (p.1, .okMsg "Task deleted successfully") else (p.1, .notFound)
  else (db, .invalid ["Index is out of range"])

/-- DELETE /tasks/:id (integer id route). -/
def deleteTaskById (db : DB) (uid id : Nat) : DB × SimpleResp :=
  let p := deleteTask db id uid
  if p.2 then (p.1, .noContent) else (p.1, .notFound)

/-- Legacy POST /tasks/bulk-delete: keep in-range indices, process them in
descending order, delete the id each index resolves to in the pre-fetched
list, and count successful deletes. -/
def bulkDeleteByIndices (db : DB) (uid : Nat) (indices : List Int) :
    DB × BulkResp :=
  if indices = [] then (db, .invalid ["At least one index must be provided"])
  else
    let fetched := getAllTasks db uid none none "priority"
    let valid := indices.filter (fun i => 0 ≤ i && i < (fetched.length : Int))
    if valid = [] then (db, .invalid ["No valid indices provided"])
    else
      let sorted := valid.insertionSort (fun a b => b ≤ a)
      let p := sorted.foldl (fun (acc : DB × Nat) i =>
        match fetched.get? i.toNat with
        | some t0 =>
          let q := deleteTask acc.1 t0.id uid
          (q.1, acc.2 + boolNat q.2)
        | none => acc) (db, 0)
      (p.1, .okDeleted p.2)

/-- Legacy POST /tasks/bulk-complete: keep in-range indices and rewrite each
resolved task with its stored fields and the shared completed flag. -/
def bulkCompleteByIndices (db : DB) (uid : Nat) (indices : List Int)
    (completed : Bool) : DB × BulkResp :=
  if indices = [] then (db, .invalid ["At least one index must be provided"])
  else
    let fetched := getAllTasks db uid none none "priority"
    let valid := indices.filter (fun i => 0 ≤ i && i < (fetched.length : Int))
    if valid = [] then (db, .invalid ["No valid indices provided"])
    else
      let p := valid.foldl (fun (acc : DB × Nat) i =>
        match fetched.get? i.toNat with
        | some t0 =>
          let q := updateTask acc.1 t0.id uid t0.text (some t0.priority)
            (some t0.due_date) (some t0.category) (some completed)
          (q.1, acc.2 + boolNat q.2)
        | none => acc) (db, 0)
      (p.1, .okUpdated p.2)

/-- One iteration of the DELETE /tasks bulk loop: delete the id scoped to
the caller and add one to the count when a row was affected. -/
def delStep (uid : Nat) (acc : DB × Nat) (i : Int) : DB × Nat :=
  ((deleteTask acc.1 i.toNat uid).1, acc.2 + boolNat (deleteTask acc.1 i.toNat uid).2)

/-- DELETE /tasks (bulk by ids): keep positive integer ids, delete each one
scoped to the caller, and report the number of deletes that affected a row. -/
def bulkDeleteByIds (db : DB) (uid : Nat) (ids : List Int) : DB × BulkResp :=
  if ids = [] then (db, .invalid ["At least one task ID must be provided"])
  else
    let valid := ids.filter (fun i => 0 < i)
    if valid = [] then (db, .invalid ["No valid task IDs provided"])
    else
      let p := valid.foldl (delStep uid) (db, 0)
      (p.1, .okDeleted p.2)

/-- One iteration of the PATCH /tasks bulk loop: look the id up in the
pre-fetched task list, and when found rewrite that task with its own stored
fields and the shared completed flag, adding one to the count when a row was
affected. -/
def patchStep (uid : Nat) (fetched : List Task) (completed : Bool)
    (acc : DB × Nat) (i : Int) : DB × Nat :=
  match fetched.find? (fun t => (t.id : Int) == i) with
  | some t0 =>
    ((updateTask acc.1 i.toNat uid t0.text (some t0.priority) (some t0.due_date)
        (some t0.category) (some completed)).1,
     acc.2 + boolNat (updateTask acc.1 i.toNat uid t0.text (some t0.priority)
        (some t0.due_date) (some t0.category) (some completed)).2)
  | none => acc

/-- PATCH /tasks (bulk by ids): keep positive integer ids, look each one up
in the pre-fetched task list, rewrite found tasks with the shared completed
flag, and report the number of updates that affected a row. -/
def bulkPatchByIds (db : DB) (uid : Nat) (ids : List Int) (completed : Bool) :
    DB × BulkResp :=
  if ids = [] then (db, .invalid ["At least one task ID must be provided"])
  else
    let valid := ids.filter (fun i => 0 < i)
    if valid = [] then (db, .invalid ["No valid task IDs provided"])
    else
      let p := valid.foldl (patchStep uid (getAllTasks db uid none none "priority") completed) (db, 0)
      (p.1, .okUpdated p.2)

/-- POST /tasks/reorder: reject an empty list, otherwise hand the whole batch
to reorderTasks with no ownership check of any id. -/
def reorderHandler (db : DB) (orders : List (Int × Int)) : DB × SimpleResp :=
  if orders = [] then (db, .invalid ["invalid taskOrders array"])
  else (reorderTasks db orders, .okMsg "tasks reordered successfully")

/-- The structured 401 body built by ErrorResponse.unauthorized, plus the
HTTP status used with it. -/
structure AuthError where
  status : Nat
  etype : String
  message : String
deriving DecidableEq

inductive AuthResult where
  | ok (userId : Nat)
  | err (e : AuthError)
deriving DecidableEq

/-- JS String.prototype.split on a single space, accumulator style. -/
def splitOnSpaceAux : List Char → List Char → List (List Char)
  | [], cur => [cur.reverse]
  | c :: rest, cur =>
    if c = ' ' then cur.reverse :: splitOnSpaceAux rest []
    else splitOnSpaceAux rest (c :: cur)

def jsSplitSpace (s : String) : List String :=
  (splitOnSpaceAux s.data []).map String.mk

/-- authenticateToken middleware: missing (or falsy) header, then missing (or
falsy) token segment after split(space), then JWT verification, each with its
own message but all with status 401 and type AUTHENTICATION_ERROR.
Verification of the signed token is the uninterpreted parameter verify,
returning the embedded user id on success. -/
def authenticateToken (verify : String → Option Nat) (authHeader : Option String) :
    AuthResult :=
  match authHeader with
  | none => .err ⟨401, "AUTHENTICATION_ERROR", "No authorization header provided"⟩
  | some h =>
    if h = "" then
      .err ⟨401, "AUTHENTICATION_ERROR", "No authorization header provided"⟩
    else
      match (jsSplitSpace h).get? 1 with
      | none => .err ⟨401, "AUTHENTICATION_ERROR", "Invalid authorization header format"⟩
      | some tok =>
        if tok = "" then
          .err ⟨401, "AUTHENTICATION_ERROR", "Invalid authorization header format"⟩
        else
          match verify tok with
          | none => .err ⟨401, "AUTHENTICATION_ERROR", "Invalid token"⟩
          | some uid => .ok uid

/-- One mutating API request, with the authenticated caller baked in. -/
inductive Op where
  | create (uid : Nat) (text priority : Option String)
      (due_date category : Option (Option String))
  | putId (uid id : Nat) (text task priority : Option String)
      (due_date category : Option (Option String)) (completed : Option Bool)
  | patchId (uid id : Nat) (completed : Option Bool)
  | putIndex (uid idx : Nat) (text task priority : Option String)
      (due_date category : Option (Option String)) (completed : Option Bool)
  | toggleIndex (uid idx : Nat)
  | deleteIndex (uid idx : Nat)
  | bulkDeleteIdx (uid : Nat) (indices : List Int)
  | bulkCompleteIdx (uid : Nat) (indices : List Int) (completed : Bool)
  | deleteId (uid id : Nat)
  | bulkDeleteIds (uid : Nat) (ids : List Int)
  | bulkPatchIds (uid : Nat) (ids : List Int) (completed : Bool)
  | reorder (orders : List (Int × Int))

/-- The database state after one mutating request. -/
def applyOp (dateOk : String → Bool) (db : DB) : Op → DB
  | .create uid text priority due_date category =>
    (postTask dateOk db uid text priority due_date category).1
  | .putId uid id text task priority due_date category completed =>
    (putTaskById dateOk db uid id text task priority due_date category completed).1
  | .patchId uid id completed => (patchTaskById db uid id completed).1
  | .putIndex uid idx text task priority due_date category completed =>
    (putTaskByIndex dateOk db uid idx text task priority due_date category completed).1
  | .toggleIndex uid idx => (toggleTaskByIndex db uid idx).1
  | .deleteIndex uid idx => (deleteTaskByIndex db uid idx).1
  | .bulkDeleteIdx uid indices => (bulkDeleteByIndices db uid indices).1
  | .bulkCompleteIdx uid indices c => (bulkCompleteByIndices db uid indices c).1
  | .deleteId uid id => (deleteTaskById db uid id).1
  | .bulkDeleteIds uid ids => (bulkDeleteByIds db uid ids).1
  | .bulkPatchIds uid ids c => (bulkPatchByIds db uid ids c).1
  | .reorder orders => (reorderHandler db orders).1

/-- The database state after a sequence of mutating requests from a fresh
store. -/
def applyOps (dateOk : String → Bool) (ops : List Op) : DB :=
  ops.foldl (applyOp dateOk) DB.init


/-- Rank written in the spec's words: high maps to 1, medium to 2, low to 3
and any unknown priority to 2. -/
def specRank (p : String) : Nat :=
  if p = "high" then 1 else if p = "medium" then 2 else if p = "low" then 3 else 2

/-- Order stated by the spec for manual mode: ascending by completed
(incomplete strictly first), then by sort_order. -/
def specManualLe (a b : Task) : Prop :=
  (a.completed = false ∧ b.completed = true) ∨
    (a.completed = b.completed ∧ a.sort_order ≤ b.sort_order)

/-- Order stated by the spec for the priority/default mode: ascending by
completed, then by priority rank, then by creation timestamp. -/
def specPriorityLe (a b : Task) : Prop :=
  (a.completed = false ∧ b.completed = true) ∨
    (a.completed = b.completed ∧
      (specRank a.priority < specRank b.priority ∨
        (specRank a.priority = specRank b.priority ∧ a.created_at ≤ b.created_at)))

theorem priorityRank_eq_specRank (p : String) : priorityRank p = specRank p := by
  by_cases h1 : p = "high" <;> by_cases h2 : p = "medium" <;> by_cases h3 : p = "low" <;>
    simp [priorityRank, specRank, h1, h2, h3]

theorem manualLe_imp_spec (a b : Task) (h : manualLe a b) : specManualLe a b := by
  cases ha : a.completed <;> cases hb : b.completed <;>
    simp_all [manualLe, specManualLe, boolNat]

theorem priorityLe_imp_spec (a b : Task) (h : priorityLe a b) : specPriorityLe a b := by
  cases ha : a.completed <;> cases hb : b.completed <;>
    simp_all [priorityLe, specPriorityLe, boolNat, priorityRank_eq_specRank]

theorem taskOrder_completed (s : String) (a b : Task) (h : taskOrder s a b)
    (ha : a.completed = true) : b.completed = true := by
  cases hb : b.completed
  · unfold taskOrder manualLe priorityLe at h
    split at h <;> simp [boolNat, ha, hb] at h
  · rfl

theorem sorted_getAllTasks (db : DB) (uid : Nat) (search cat : Option String)
    (sortBy : String) :
    (getAllTasks db uid search cat sortBy).Sorted (taskOrder sortBy) :=
  List.Pairwise.sublist (List.take_sublist _ _)
    (List.sorted_insertionSort (taskOrder sortBy) _)

theorem mem_getAllTasks_sub (db : DB) (uid : Nat) (search cat : Option String)
    (sortBy : String) (t : Task) (h : t ∈ getAllTasks db uid search cat sortBy) :
    t ∈ db.tasks ∧ taskFilter uid search cat t = true := by
  have h1 := (List.take_sublist _ _).subset h
  have h2 := (List.mem_insertionSort (taskOrder sortBy)).mp h1
  exact ⟨List.mem_of_mem_filter h2, List.of_mem_filter h2⟩

/-- C1: listTasks always constrains its result to rows whose user_id equals
the authenticated caller's id, so for distinct users A and B, every task of A
is absent from the result computed for B, for every combination of search,
category and sort parameters. -/
theorem C1_cross_user_isolation (db : DB) (uidA uidB : Nat)
    (search cat : Option String) (sortBy : String) (t : Task)
    (hne : uidA ≠ uidB) (ht : t.user_id = uidA) :
    t ∉ getAllTasks db uidB search cat sortBy ∧
      ∀ u ∈ getAllTasks db uidB search cat sortBy, u.user_id = uidB := by
  have hall : ∀ u ∈ getAllTasks db uidB search cat sortBy, u.user_id = uidB := by
    intro u hu
    have h3 := (mem_getAllTasks_sub db uidB search cat sortBy u hu).2
    unfold taskFilter at h3
    simp only [Bool.and_eq_true, beq_iff_eq] at h3
    exact h3.1.1
  exact ⟨fun hc => hne (ht.symm.trans (hall t hc)), hall⟩

/-- A two-user store used to instantiate several universally quantified
theorems at concrete inputs. -/
def dbAB : DB :=
  ⟨[{ id := 1, text := "alpha", priority := "high", due_date := none,
      category := some "work", completed := false, sort_order := 1,
      user_id := 1, created_at := 1 },
    { id := 2, text := "beta", priority := "medium", due_date := none,
      category := none, completed := true, sort_order := 2,
      user_id := 2, created_at := 2 }], 3⟩

theorem C1_cross_user_isolation_witness :
    (1 : Nat) ≠ 2 ∧
      ({ id := 1, text := "alpha", priority := "high", due_date := none,
         category := some "work", completed := false, sort_order := 1,
         user_id := 1, created_at := 1 : Task} ∉ getAllTasks dbAB 2 none none "manual" ∧
        ∀ u ∈ getAllTasks dbAB 2 none none "manual", u.user_id = 2) :=
  ⟨by decide,
   C1_cross_user_isolation dbAB 1 2 none none "manual" _ (by decide) (by decide)⟩

/-- C4: listTasks returns its rows in the spec's order: with sort manual,
ascending by completed then sort_order; with any other sort value, ascending
by completed, then priority rank (high 1, medium 2, low 3, unknown 2), then
creation timestamp; in both modes every completed task comes after every
incomplete one. -/
theorem C4_listTasks_ordering (db : DB) (uid : Nat) (search cat : Option String)
    (sortBy : String) :
    (getAllTasks db uid search cat "manual").Sorted specManualLe ∧
      (sortBy ≠ "manual" →
        (getAllTasks db uid search cat sortBy).Sorted specPriorityLe) ∧
      (getAllTasks db uid search cat sortBy).Pairwise
        (fun a b => a.completed = true → b.completed = true) := by
  refine ⟨?_, ?_, ?_⟩
  · refine (sorted_getAllTasks db uid search cat "manual").imp ?_
    intro a b hab
    refine manualLe_imp_spec a b ?_
    simpa [taskOrder] using hab
  · intro hs
    refine (sorted_getAllTasks db uid search cat sortBy).imp ?_
    intro a b hab
    refine priorityLe_imp_spec a b ?_
    simpa [taskOrder, hs] using hab
  · exact (sorted_getAllTasks db uid search cat sortBy).imp
      (fun hab ha => taskOrder_completed _ _ _ hab ha)

theorem C4_listTasks_ordering_witness :
    (getAllTasks dbAB 1 none none "manual").Sorted specManualLe ∧
      (getAllTasks dbAB 1 none none "priority").Sorted specPriorityLe ∧
      (getAllTasks dbAB 1 none none "priority").Pairwise
        (fun a b => a.completed = true → b.completed = true) :=
  ⟨(C4_listTasks_ordering dbAB 1 none none "priority").1,
   (C4_listTasks_ordering dbAB 1 none none "priority").2.1 (by decide),
   (C4_listTasks_ordering dbAB 1 none none "priority").2.2⟩


theorem maxSort_spec (db : DB) (uid : Nat) (m : Int) (h : db.maxSort uid = some m) :
    (∃ u ∈ db.tasks, u.user_id = uid ∧ u.sort_order = m) ∧
      ∀ u ∈ db.tasks, u.user_id = uid → u.sort_order ≤ m := by
  unfold DB.maxSort at h
  constructor
  · have hm := List.max?_mem (fun a b : Int => max_choice a b) h
    simp only [List.mem_map, List.mem_filter, beq_iff_eq] at hm
    obtain ⟨u, ⟨hu, huid⟩, hso⟩ := hm
    exact ⟨u, hu, huid, hso⟩
  · intro u hu huid
    have hle := (List.max?_le_iff (fun a b c : Int => max_le_iff) h).mp le_rfl
    refine hle u.sort_order ?_
    simp only [List.mem_map, List.mem_filter, beq_iff_eq]
    exact ⟨u, ⟨hu, huid⟩, rfl⟩

/-- C7: addTask resolves the generated id of the new row, inserts the row
under that id, and assigns sort_order as one more than the maximum existing
sort_order among the caller's tasks, or 1 when the caller has none; the new
sort_order is strictly greater than every existing sort_order of that user. -/
theorem C7_create_sort_order (db : DB) (text : String) (uid : Nat)
    (priority : String) (dueDate category : Option String) :
    (addTask db text uid priority dueDate category).2 = db.nextId ∧
      ∃ t ∈ (addTask db text uid priority dueDate category).1.tasks,
        t.id = db.nextId ∧ t.user_id = uid ∧ t.text = text ∧
        ((∀ u ∈ db.tasks, u.user_id ≠ uid) → t.sort_order = 1) ∧
        ((∃ u ∈ db.tasks, u.user_id = uid) →
          ∃ u ∈ db.tasks, u.user_id = uid ∧ t.sort_order = u.sort_order + 1) ∧
        ∀ u ∈ db.tasks, u.user_id = uid → u.sort_order < t.sort_order := by
  refine ⟨rfl, ?_⟩
  refine ⟨_, List.mem_append_right _ (List.mem_singleton_self _), rfl, rfl, rfl,
    ?_, ?_, ?_⟩
  · intro hnone
    have hfil : db.tasks.filter (fun t => t.user_id == uid) = [] := by
      refine List.filter_eq_nil_iff.mpr ?_
      intro u hu
      simpa using hnone u hu
    show (db.maxSort uid).getD 0 + 1 = 1
    unfold DB.maxSort
    rw [hfil]
    rfl
  · intro ⟨u, hu, huid⟩
    have hne : db.maxSort uid ≠ none := by
      unfold DB.maxSort
      simp only [ne_eq, List.max?_eq_none_iff, List.map_eq_nil_iff,
        List.filter_eq_nil_iff, not_forall]
      exact ⟨u, hu, by simp [huid]⟩
    obtain ⟨m, hm⟩ := Option.ne_none_iff_exists'.mp hne
    obtain ⟨⟨v, hv, hvid, hvso⟩, _⟩ := maxSort_spec db uid m hm
    refine ⟨v, hv, hvid, ?_⟩
    show (db.maxSort uid).getD 0 + 1 = v.sort_order + 1
    rw [hm, hvso]
    rfl
  · intro u hu huid
    have hne : db.maxSort uid ≠ none := by
      unfold DB.maxSort
      simp only [ne_eq, List.max?_eq_none_iff, List.map_eq_nil_iff,
        List.filter_eq_nil_iff, not_forall]
      exact ⟨u, hu, by simp [huid]⟩
    obtain ⟨m, hm⟩ := Option.ne_none_iff_exists'.mp hne
    obtain ⟨_, hall⟩ := maxSort_spec db uid m hm
    have := hall u hu huid
    show u.sort_order < (db.maxSort uid).getD 0 + 1
    rw [hm]
    show u.sort_order < m + 1
    omega

theorem C7_create_sort_order_witness :
    (addTask dbAB "gamma" 1 "medium" none none).2 = dbAB.nextId ∧
      ∃ t ∈ (addTask dbAB "gamma" 1 "medium" none none).1.tasks,
        t.id = dbAB.nextId ∧ t.user_id = 1 ∧ t.text = "gamma" ∧
        ((∀ u ∈ dbAB.tasks, u.user_id ≠ 1) → t.sort_order = 1) ∧
        ((∃ u ∈ dbAB.tasks, u.user_id = 1) →
          ∃ u ∈ dbAB.tasks, u.user_id = 1 ∧ t.sort_order = u.sort_order + 1) ∧
        ∀ u ∈ dbAB.tasks, u.user_id = 1 → u.sort_order < t.sort_order :=
  C7_create_sort_order dbAB "gamma" 1 "medium" none none


/-- C8 (amended): a request with no Authorization header and a request with a
well-formed Bearer header carrying a wrong token are both rejected with
status 401 and error type AUTHENTICATION_ERROR, but with check-specific
messages (no-header, bad-format and bad-token cases each carry their own
message rather than one shared generic message). -/
theorem C8_auth_401_type (verify : String → Option Nat) (h tok : String)
    (hne : h ≠ "") (hsplit : (jsSplitSpace h).get? 1 = some tok)
    (htok : tok ≠ "") (hbad : verify tok = none) :
    authenticateToken verify none =
      .err ⟨401, "AUTHENTICATION_ERROR", "No authorization header provided"⟩ ∧
    authenticateToken verify (some h) =
      .err ⟨401, "AUTHENTICATION_ERROR", "Invalid token"⟩ := by
  refine ⟨rfl, ?_⟩
  rw [List.get?_eq_getElem?] at hsplit
  unfold authenticateToken
  simp [hne, hsplit, htok, hbad]

theorem C8_auth_401_type_witness :
    ("Bearer wrong" : String) ≠ "" ∧
    (jsSplitSpace "Bearer wrong").get? 1 = some "wrong" ∧
    ("wrong" : String) ≠ "" ∧
    ((fun _ : String => (none : Option Nat)) "wrong" = none) ∧
    (authenticateToken (fun _ => none) none =
      .err ⟨401, "AUTHENTICATION_ERROR", "No authorization header provided"⟩ ∧
     authenticateToken (fun _ => none) (some "Bearer wrong") =
      .err ⟨401, "AUTHENTICATION_ERROR", "Invalid token"⟩) :=
  ⟨by decide, by decide, by decide, rfl,
   C8_auth_401_type (fun _ => none) "Bearer wrong" "wrong" (by decide) (by decide)
     (by decide) rfl⟩

/-- C8 counterexample to the claim as stated: the 401 message for a missing
header and the 401 message for a wrong token are not the same generic
message, so the response does reveal which authentication check failed. -/
theorem C8_messages_differ :
    authenticateToken (fun _ => none) none =
      .err ⟨401, "AUTHENTICATION_ERROR", "No authorization header provided"⟩ ∧
    authenticateToken (fun _ => none) (some "Bearer wrong") =
      .err ⟨401, "AUTHENTICATION_ERROR", "Invalid token"⟩ ∧
    ("No authorization header provided" : String) ≠ "Invalid token" := by
  refine ⟨rfl, by decide, by decide⟩

/-- C6 (amended): for a task owned by the caller, PUT /tasks/:id with a valid
body rewrites text always, rewrites priority, due_date and completed only
when supplied (keeping the stored value otherwise), but always rewrites
category (clearing it to null when the request omits it); untouched rows are
unchanged; and the 200 body echoes request-derived values (priority
defaulting to medium, due_date truthy-or-null, completed defaulting to
false) rather than the persisted row. -/
theorem C6_update_partial_semantics (dateOk : String → Bool) (db : DB)
    (uid id : Nat) (text task priority : Option String)
    (due_date category : Option (Option String)) (completed : Option Bool)
    (t0 : Task) (ht0 : t0 ∈ db.tasks) (hid : t0.id = id) (huid : t0.user_id = uid)
    (hval : putValidate dateOk (jsOr text task) priority due_date category = []) :
    { t0 with text := jsTrim ((jsOr text task).getD ""),
              priority := priority.getD t0.priority,
              due_date := due_date.getD t0.due_date,
              category := jsCat category,
              completed := completed.getD t0.completed } ∈
        (putTaskById dateOk db uid id text task priority due_date category completed).1.tasks ∧
    (∀ u ∈ db.tasks, ¬(u.id = id ∧ u.user_id = uid) →
      u ∈ (putTaskById dateOk db uid id text task priority due_date category completed).1.tasks) ∧
    (putTaskById dateOk db uid id text task priority due_date category completed).2 =
      .ok { id := id, text := jsTrim ((jsOr text task).getD ""),
            priority := priority.getD "medium", due_date := jsTruthy due_date,
            category := jsCat category, completed := completed.getD false } := by
  have hhit : db.tasks.any (fun t => t.id == id && t.user_id == uid) = true :=
    List.any_eq_true.mpr ⟨t0, ht0, by simp [hid, huid]⟩
  simp only [putTaskById]
  rw [hval]
  simp only [if_pos rfl]
  unfold updateTask
  simp only [hhit, if_pos rfl]
  refine ⟨?_, ?_, rfl⟩
  · have := List.mem_map_of_mem (fun t : Task =>
      if t.id == id && t.user_id == uid then
        { t with text := jsTrim ((jsOr text task).getD ""),
                 priority := priority.getD t.priority,
                 due_date := due_date.getD t.due_date,
                 category := (some (jsCat category)).getD t.category,
                 completed := completed.getD t.completed }
      else t) ht0
    simpa [hid, huid] using this
  · intro u hu hnot
    have := List.mem_map_of_mem (fun t : Task =>
      if t.id == id && t.user_id == uid then
        { t with text := jsTrim ((jsOr text task).getD ""),
                 priority := priority.getD t.priority,
                 due_date := due_date.getD t.due_date,
                 category := (some (jsCat category)).getD t.category,
                 completed := completed.getD t.completed }
      else t) hu
    have hcond : (u.id == id && u.user_id == uid) = false := by
      by_cases h1 : u.id = id <;> by_cases h2 : u.user_id = uid <;>
        simp_all
    simpa [hcond] using this

theorem C6_update_partial_semantics_witness :
    ({ id := 1, text := "x", priority := "high", due_date := none,
       category := none, completed := false, sort_order := 1, user_id := 1,
       created_at := 1 : Task } ∈
        (putTaskById (fun _ => true) dbAB 1 1 (some "x") none none none none none).1.tasks ∧
      (∀ u ∈ dbAB.tasks, ¬(u.id = 1 ∧ u.user_id = 1) →
        u ∈ (putTaskById (fun _ => true) dbAB 1 1 (some "x") none none none none none).1.tasks) ∧
      (putTaskById (fun _ => true) dbAB 1 1 (some "x") none none none none none).2 =
        .ok { id := 1, text := "x", priority := "medium", due_date := none,
              category := none, completed := false }) := by
  have h := C6_update_partial_semantics (fun _ => true) dbAB 1 1 (some "x")
    none none none none none
    { id := 1, text := "alpha", priority := "high", due_date := none,
      category := some "work", completed := false, sort_order := 1,
      user_id := 1, created_at := 1 }
    (by decide) (by decide) (by decide) (by decide)
  exact h

/-- C6 counterexample to the claim as stated: updating task 1 of dbAB (stored
priority high, category work) with a body supplying only the text clears the
stored category to null instead of keeping it, and the 200 body reports
priority medium while the persisted row keeps priority high. -/
theorem C6_counterexample :
    ((putTaskById (fun _ => true) dbAB 1 1 (some "x") none none none none none).1.tasks.find?
        (fun t => t.id == 1)) =
      some { id := 1, text := "x", priority := "high", due_date := none,
             category := none, completed := false, sort_order := 1,
             user_id := 1, created_at := 1 } ∧
    (putTaskById (fun _ => true) dbAB 1 1 (some "x") none none none none none).2 =
      .ok { id := 1, text := "x", priority := "medium", due_date := none,
            category := none, completed := false } ∧
    (dbAB.tasks.find? (fun t => t.id == 1)).map (fun t => t.category) =
      some (some "work") ∧
    ("high" : String) ≠ "medium" := by
  refine ⟨by decide, by decide, by decide, by decide⟩


/-- The effect of a reorder batch on a single row: each entry whose id
matches rewrites sort_order, later entries overriding earlier ones. -/
def applyOrders (orders : List (Int × Int)) (t : Task) : Task :=
  orders.foldl (fun u o =>
    if (u.id : Int) == o.1 then { u with sort_order := o.2 } else u) t

theorem applyOrders_id (orders : List (Int × Int)) (t : Task) :
    (applyOrders orders t).id = t.id ∧
    (applyOrders orders t).text = t.text ∧
    (applyOrders orders t).user_id = t.user_id ∧
    (applyOrders orders t).completed = t.completed := by
  induction orders generalizing t with
  | nil => exact ⟨rfl, rfl, rfl, rfl⟩
  | cons o rest ih =>
    have step : applyOrders (o :: rest) t =
        applyOrders rest (if (t.id : Int) == o.1 then { t with sort_order := o.2 } else t) :=
      rfl
    rw [step]
    rcases ih (if (t.id : Int) == o.1 then { t with sort_order := o.2 } else t) with
      ⟨h1, h2, h3, h4⟩
    constructor
    · rw [h1]; split <;> rfl
    constructor
    · rw [h2]; split <;> rfl
    constructor
    · rw [h3]; split <;> rfl
    · rw [h4]; split <;> rfl

theorem applyOrders_not_named (orders : List (Int × Int)) (t : Task)
    (h : ∀ o ∈ orders, o.1 ≠ (t.id : Int)) : applyOrders orders t = t := by
  induction orders with
  | nil => rfl
  | cons o rest ih =>
    have step : applyOrders (o :: rest) t =
        applyOrders rest (if (t.id : Int) == o.1 then { t with sort_order := o.2 } else t) :=
      rfl
    rw [step,
      if_neg (fun he => (h o (List.mem_cons_self o rest)) ((beq_iff_eq.mp he).symm))]
    exact ih (fun o2 ho2 => h o2 (List.mem_cons_of_mem o ho2))

theorem reorderTasks_eq_map (db : DB) (orders : List (Int × Int)) :
    reorderTasks db orders = ⟨db.tasks.map (applyOrders orders), db.nextId⟩ := by
  induction orders generalizing db with
  | nil =>
    cases db with
    | mk tasks nextId =>
      show DB.mk tasks nextId = ⟨tasks.map (applyOrders []), nextId⟩
      have h1 : tasks.map (applyOrders []) = tasks.map (fun a => a) :=
        List.map_congr_left (fun a _ => rfl)
      rw [h1, List.map_id']
  | cons o rest ih =>
    have step : reorderTasks db (o :: rest) =
        reorderTasks ⟨db.tasks.map (fun t =>
          if (t.id : Int) == o.1 then { t with sort_order := o.2 } else t),
          db.nextId⟩ rest := rfl
    rw [step, ih]
    congr 1
    rw [List.map_map]
    exact List.map_congr_left (fun a _ => rfl)

/-- C3 (amended): reorderTasks rewrites each stored row independently
according to the entries matching its id (later entries win); an entry
naming a nonexistent id is a zero-row update rather than an error, so it
does not prevent the other entries from being applied and committed, and
rows named by no entry keep their sort_order; only sort_order ever changes. -/
theorem C3_reorder_independent_updates (db : DB) (orders : List (Int × Int)) :
    (reorderTasks db orders).tasks = db.tasks.map (applyOrders orders) ∧
      (reorderTasks db orders).nextId = db.nextId ∧
      (∀ t, (applyOrders orders t).id = t.id ∧ (applyOrders orders t).text = t.text ∧
        (applyOrders orders t).user_id = t.user_id ∧
        (applyOrders orders t).completed = t.completed) ∧
      ∀ t, (∀ o ∈ orders, o.1 ≠ (t.id : Int)) → applyOrders orders t = t := by
  refine ⟨?_, ?_, fun t => applyOrders_id orders t, fun t h => applyOrders_not_named orders t h⟩
  · rw [reorderTasks_eq_map]
  · rw [reorderTasks_eq_map]

/-- C3 counterexample to the claim as stated: in dbAB (rows with ids 1 and 2
and sort_order 1 and 2), the batch [(1, 10), (99, 20)] contains the invalid
id 99 which names no row, yet the handler reports success and row 1 ends up
with sort_order 10; the sort_order values are not all left as they were. -/
theorem C3_counterexample :
    (∀ t ∈ dbAB.tasks, (t.id : Int) ≠ 99) ∧
      (reorderHandler dbAB [(1, 10), (99, 20)]).2 = .okMsg "tasks reordered successfully" ∧
      ((reorderHandler dbAB [(1, 10), (99, 20)]).1.tasks.map (fun t => t.sort_order)) =
        [10, 2] ∧
      (dbAB.tasks.map (fun t => t.sort_order)) = [1, 2] := by
  refine ⟨by decide, by decide, by decide, by decide⟩

/-- C2: the reorder route is a cross-user write hole.  The handler validates
only the shape of the entries and reorderTasks is not scoped to any user (the
model takes no caller id at all, mirroring the source), so a request issued
by any authenticated user, for example user 2, changes the sort_order of
task 1 even though task 1 belongs to user 1. -/
theorem C2_reorder_cross_user_write :
    (dbAB.tasks.map (fun t => (t.id, t.user_id, t.sort_order))) =
      [(1, 1, 1), (2, 2, 2)] ∧
      (reorderHandler dbAB [(1, 99)]).2 = .okMsg "tasks reordered successfully" ∧
      ((reorderHandler dbAB [(1, 99)]).1.tasks.map (fun t => (t.id, t.user_id, t.sort_order))) =
        [(1, 1, 99), (2, 2, 2)] := by
  refine ⟨by decide, by decide, by decide⟩

/-- C9 (amended): the shared text validation accepts a text exactly when its
trimmed form is non-empty and at most 200 characters; a text whose trimmed
length exceeds 200 is rejected with exactly the text-length message, and POST
/tasks then answers 400 with that message; a missing text is rejected as
required.  (The raw, untrimmed length is irrelevant: the boundary sits on the
trimmed length.) -/
theorem C9_text_length_validation (dateOk : String → Bool) (db : DB) (uid : Nat)
    (s : String) :
    (validateTextStr s = [] ↔ jsTrim s ≠ "" ∧ (jsTrim s).length ≤ 200) ∧
      ((jsTrim s).length > 200 →
        validateTextStr s = ["Task text cannot exceed 200 characters"]) ∧
      validateText none = ["Task text is required"] ∧
      ((jsTrim s).length > 200 →
        (postTask dateOk db uid (some s) none none none).2 =
          .invalid ["Task text cannot exceed 200 characters"]) := by
  have hempty : s = "" → jsTrim s = "" := fun h => by rw [h]; rfl
  refine ⟨⟨?_, ?_⟩, ?_, rfl, ?_⟩
  · intro h
    by_cases h1 : s = ""
    · rw [validateTextStr, if_pos h1] at h; simp at h
    · rw [validateTextStr, if_neg h1] at h
      by_cases h2 : jsTrim s = ""
      · rw [if_pos h2] at h; simp at h
      · rw [if_neg h2] at h
        by_cases h3 : (jsTrim s).length > 200
        · rw [if_pos h3] at h; simp at h
        · exact ⟨h2, by omega⟩
  · intro ⟨h2, h3⟩
    have h1 : s ≠ "" := fun he => h2 (hempty he)
    rw [validateTextStr, if_neg h1, if_neg h2, if_neg (by omega)]
  · intro h3
    have h2 : jsTrim s ≠ "" := by
      intro he
      rw [he] at h3
      simp at h3
    have h1 : s ≠ "" := fun he => h2 (hempty he)
    rw [validateTextStr, if_neg h1, if_neg h2, if_pos h3]
  · intro h3
    have h2 : jsTrim s ≠ "" := by
      intro he
      rw [he] at h3
      simp at h3
    have h1 : s ≠ "" := fun he => h2 (hempty he)
    have hval0 : postValidate dateOk (some s) none none none = validateTextStr s := by
      simp [postValidate, validateText, jsTruthy, validPriority]
    have hval : postValidate dateOk (some s) none none none =
        ["Task text cannot exceed 200 characters"] := by
      rw [hval0, validateTextStr, if_neg h1, if_neg h2, if_pos h3]
    simp only [postTask, hval]
    rw [if_neg (by simp)]

set_option maxRecDepth 16384 in
theorem C9_text_length_validation_witness :
    ((jsTrim (String.mk (List.replicate 201 'a'))).length > 200) ∧
      validateTextStr (String.mk (List.replicate 201 'a')) =
        ["Task text cannot exceed 200 characters"] ∧
      (postTask (fun _ => true) DB.init 1 (some (String.mk (List.replicate 201 'a')))
          none none none).2 =
        .invalid ["Task text cannot exceed 200 characters"] :=
  ⟨by decide,
   (C9_text_length_validation (fun _ => true) DB.init 1
      (String.mk (List.replicate 201 'a'))).2.1 (by decide),
   (C9_text_length_validation (fun _ => true) DB.init 1
      (String.mk (List.replicate 201 'a'))).2.2.2 (by decide)⟩

set_option maxRecDepth 16384 in
/-- C9 counterexample to the claim as stated: a 201-character text whose last
character is a space trims to 200 characters and is accepted, and a
200-character text of spaces trims to empty and is rejected, so the accepted
set is not determined by the raw character count. -/
theorem C9_counterexample :
    (String.mk (List.replicate 200 'a' ++ [' '])).length = 201 ∧
      validateTextStr (String.mk (List.replicate 200 'a' ++ [' '])) = [] ∧
      (String.mk (List.replicate 200 ' ')).length = 200 ∧
      validateTextStr (String.mk (List.replicate 200 ' ')) =
        ["Task text cannot be empty"] := by
  refine ⟨by decide, by decide, by decide, by decide⟩


/-- Whether some stored row has the given (integer) id and owner. -/
def ownedIn (db : DB) (uid : Nat) (i : Int) : Bool :=
  db.tasks.any (fun t => (t.id : Int) == i && t.user_id == uid)

/-- The number of distinct ids in the list that name an existing row of the
given owner. -/
def expectedDeleted (db : DB) (uid : Nat) (l : List Int) : Nat :=
  (l.toFinset.filter (fun i => ownedIn db uid i = true)).card

theorem bool_eq_of_iff {a b : Bool} (h : a = true ↔ b = true) : a = b := by
  cases a <;> cases b <;> simp_all

theorem any_congr {α : Type} (l : List α) (p q : α → Bool)
    (h : ∀ a ∈ l, p a = q a) : l.any p = l.any q := by
  induction l with
  | nil => rfl
  | cons a l ih =>
    simp only [List.any_cons, h a (List.mem_cons_self a l),
      ih (fun b hb => h b (List.mem_cons_of_mem a hb))]

theorem beq_id_toNat (tid : Nat) (i : Int) (hi : 0 < i) :
    (tid == i.toNat) = ((tid : Int) == i) := by
  by_cases h : (tid : Int) = i
  · have h2 : tid = i.toNat := by omega
    simp [h, h2]
    omega
  · have h2 : tid ≠ i.toNat := by omega
    simp [h, h2]

theorem deleteTask_hit (d : DB) (uid : Nat) (i : Int) (hi : 0 < i) :
    (deleteTask d i.toNat uid).2 = ownedIn d uid i := by
  unfold deleteTask ownedIn
  exact any_congr _ _ _ (fun t ht => by rw [beq_id_toNat t.id i hi])

theorem ownedIn_delete (d : DB) (uid : Nat) (i j : Int) (hi : 0 < i) (hij : j ≠ i) :
    ownedIn (deleteTask d i.toNat uid).1 uid j = ownedIn d uid j := by
  apply bool_eq_of_iff
  unfold ownedIn deleteTask
  simp only [List.any_eq_true, List.mem_filter]
  constructor
  · rintro ⟨t, ⟨ht, _⟩, hp⟩
    exact ⟨t, ht, hp⟩
  · rintro ⟨t, ht, hp⟩
    refine ⟨t, ⟨ht, ?_⟩, hp⟩
    simp only [Bool.and_eq_true, beq_iff_eq] at hp
    have : t.id ≠ i.toNat := by omega
    simp [this]

theorem ownedIn_delete_self (d : DB) (uid : Nat) (i : Int) (hi : 0 < i) :
    ownedIn (deleteTask d i.toNat uid).1 uid i = false := by
  unfold ownedIn deleteTask
  rw [List.any_eq_false]
  intro t ht hp
  rw [List.mem_filter] at ht
  simp only [Bool.and_eq_true, beq_iff_eq] at hp
  have h2 : t.id = i.toNat := by omega
  have h3 := ht.2
  rw [h2] at h3
  simp [hp.2] at h3

theorem deleteTask_noop (d : DB) (uid : Nat) (i : Int) (hi : 0 < i)
    (h : ownedIn d uid i = false) :
    (deleteTask d i.toNat uid).1 = d ∧ (deleteTask d i.toNat uid).2 = false := by
  constructor
  · show DB.mk (d.tasks.filter _) d.nextId = d
    have hfil : d.tasks.filter (fun t => !(t.id == i.toNat && t.user_id == uid)) =
        d.tasks := by
      apply List.filter_eq_self.mpr
      intro t ht
      unfold ownedIn at h
      rw [List.any_eq_false] at h
      have := h t ht
      rw [beq_id_toNat t.id i hi]
      simp only [Bool.not_eq_true] at this
      rw [this]
      rfl
    rw [hfil]
  · rw [deleteTask_hit d uid i hi]
    exact h

theorem foldl_acc_add {α : Type} (step : DB × Nat → α → DB × Nat)
    (hstep : ∀ d n a, step (d, n) a = ((step (d, 0) a).1, n + (step (d, 0) a).2)) :
    ∀ (l : List α) (d : DB) (n : Nat),
      l.foldl step (d, n) = ((l.foldl step (d, 0)).1, n + (l.foldl step (d, 0)).2) := by
  intro l
  induction l with
  | nil => intro d n; simp
  | cons a l ih =>
    intro d n
    have hR : List.foldl step (step (d, 0) a) l =
        ((List.foldl step ((step (d, 0) a).1, 0) l).1,
         (step (d, 0) a).2 + (List.foldl step ((step (d, 0) a).1, 0) l).2) := by
      have := ih ((step (d, 0) a).1) ((step (d, 0) a).2)
      simpa using this
    rw [List.foldl_cons, List.foldl_cons, hstep d n a,
      ih ((step (d, 0) a).1) (n + (step (d, 0) a).2), hR]
    simp only [Prod.mk.injEq]
    exact ⟨by trivial, by omega⟩

theorem delStep_acc (uid : Nat) : ∀ (d : DB) (n : Nat) (i : Int),
    delStep uid (d, n) i = ((delStep uid (d, 0) i).1, n + (delStep uid (d, 0) i).2) := by
  intro d n i
  simp [delStep]

theorem delFold_skip (uid : Nat) (i : Int) (hi : 0 < i) :
    ∀ (l : List Int) (d : DB) (n : Nat), (∀ j ∈ l, 0 < j) → ownedIn d uid i = false →
      l.foldl (delStep uid) (d, n) =
        (l.filter (fun j => j != i)).foldl (delStep uid) (d, n) := by
  intro l
  induction l with
  | nil => intro d n _ _; rfl
  | cons j l ih =>
    intro d n hpos h
    by_cases hji : j = i
    · subst hji
      have hfil : (j :: l).filter (fun k => k != j) = l.filter (fun k => k != j) := by
        simp
      rw [hfil, List.foldl_cons]
      have hnoop := deleteTask_noop d uid j hi h
      have hid : delStep uid (d, n) j = (d, n) := by
        simp [delStep, hnoop.1, hnoop.2, boolNat]
      rw [hid]
      exact ih d n (fun k hk => hpos k (List.mem_cons_of_mem _ hk)) h
    · have hfil : (j :: l).filter (fun k => k != i) = j :: l.filter (fun k => k != i) := by
        simp [hji]
      rw [hfil, List.foldl_cons, List.foldl_cons]
      have hj : 0 < j := hpos j (List.mem_cons_self _ _)
      have h2 : ownedIn (delStep uid (d, n) j).1 uid i = false := by
        show ownedIn (deleteTask d j.toNat uid).1 uid i = false
        rw [ownedIn_delete d uid j i hj (fun he => hji he.symm)]
        exact h
      have := ih (delStep uid (d, n) j).1 (delStep uid (d, n) j).2
        (fun k hk => hpos k (List.mem_cons_of_mem _ hk)) h2
      simpa using this


theorem expectedDeleted_cons (d : DB) (uid : Nat) (i : Int) (rest : List Int) :
    expectedDeleted d uid (i :: rest) =
      boolNat (ownedIn d uid i) + expectedDeleted d uid (rest.filter (fun j => j != i)) := by
  unfold expectedDeleted
  have h2 : (rest.filter (fun j => j != i)).toFinset = rest.toFinset.erase i := by
    ext x
    simp only [List.mem_toFinset, List.mem_filter, Finset.mem_erase, bne_iff_ne, ne_eq]
    exact ⟨fun hx => ⟨hx.2, hx.1⟩, fun hx => ⟨hx.2, hx.1⟩⟩
  rw [List.toFinset_cons, h2, Finset.filter_erase]
  by_cases ho : ownedIn d uid i = true
  · rw [Finset.filter_insert, if_pos ho]
    have hins : insert i (rest.toFinset.filter (fun k => ownedIn d uid k = true)) =
        insert i ((rest.toFinset.filter (fun k => ownedIn d uid k = true)).erase i) := by
      ext x
      by_cases hx : x = i <;> simp [hx]
    rw [hins, Finset.card_insert_of_not_mem (Finset.not_mem_erase _ _)]
    simp only [boolNat, ho, if_pos]
    omega
  · rw [Finset.filter_insert, if_neg ho]
    have hnm : i ∉ rest.toFinset.filter (fun k => ownedIn d uid k = true) := by
      simp [ho]
    rw [Finset.erase_eq_of_not_mem hnm]
    have hb : boolNat (ownedIn d uid i) = 0 := by
      cases hcase : ownedIn d uid i
      · rfl
      · exact absurd hcase ho
    omega

theorem delFold_count (uid : Nat) :
    ∀ (n : Nat) (l : List Int), l.length ≤ n → (∀ i ∈ l, 0 < i) → ∀ d : DB,
      (l.foldl (delStep uid) (d, 0)).2 = expectedDeleted d uid l := by
  intro n
  induction n with
  | zero =>
    intro l hl _ d
    have hnil : l = [] := List.length_eq_zero.mp (Nat.le_zero.mp hl)
    subst hnil
    simp [expectedDeleted]
  | succ n ih =>
    intro l hl hpos d
    cases l with
    | nil => simp [expectedDeleted]
    | cons i rest =>
      have hi : 0 < i := hpos i (List.mem_cons_self _ _)
      rw [List.foldl_cons]
      have hstep1 : delStep uid (d, 0) i =
          ((deleteTask d i.toNat uid).1, boolNat (ownedIn d uid i)) := by
        simp [delStep, deleteTask_hit d uid i hi]
      rw [hstep1]
      have hsplit : ((deleteTask d i.toNat uid).1, boolNat (ownedIn d uid i)) =
          (((deleteTask d i.toNat uid).1, boolNat (ownedIn d uid i)).1,
           ((deleteTask d i.toNat uid).1, boolNat (ownedIn d uid i)).2) := rfl
      rw [foldl_acc_add (delStep uid) (delStep_acc uid) rest
        (deleteTask d i.toNat uid).1 (boolNat (ownedIn d uid i))]
      have hnotown := ownedIn_delete_self d uid i hi
      rw [delFold_skip uid i hi rest (deleteTask d i.toNat uid).1 0
        (fun j hj => hpos j (List.mem_cons_of_mem _ hj)) hnotown]
      have hlen : (rest.filter (fun j => j != i)).length ≤ n := by
        have := List.length_filter_le (fun j => j != i) rest
        simp only [List.length_cons] at hl
        omega
      rw [ih (rest.filter (fun j => j != i)) hlen
        (fun j hj => hpos j (List.mem_cons_of_mem _ (List.mem_of_mem_filter hj)))
        (deleteTask d i.toNat uid).1]
      have hcong : expectedDeleted (deleteTask d i.toNat uid).1 uid
          (rest.filter (fun j => j != i)) =
          expectedDeleted d uid (rest.filter (fun j => j != i)) := by
        unfold expectedDeleted
        congr 1
        apply Finset.filter_congr
        intro j hj
        rw [List.mem_toFinset, List.mem_filter] at hj
        have hji : j ≠ i := by simpa using hj.2
        rw [ownedIn_delete d uid i j hi hji]
      rw [hcong, expectedDeleted_cons]


/-- The (id, user_id) view of the store, which update operations preserve. -/
def idUser (d : DB) : List (Nat × Nat) := d.tasks.map (fun t => (t.id, t.user_id))

theorem idUser_update (d : DB) (id uid : Nat) (txt : String) (p : Option String)
    (dd c : Option (Option String)) (cpl : Option Bool) :
    idUser (updateTask d id uid txt p dd c cpl).1 = idUser d := by
  unfold idUser updateTask
  simp only [List.map_map]
  apply List.map_congr_left
  intro t ht
  by_cases hc : (t.id == id && t.user_id == uid) = true <;>
    simp [Function.comp, hc]

theorem any_pair (l : List Task) (uid k : Nat) :
    l.any (fun t => t.id == k && t.user_id == uid) =
      (l.map (fun t => (t.id, t.user_id))).any (fun q => q.1 == k && q.2 == uid) := by
  induction l with
  | nil => rfl
  | cons t l ih => simp only [List.any_cons, List.map_cons, ih]

theorem any_id_user (d : DB) (uid k : Nat) :
    d.tasks.any (fun t => t.id == k && t.user_id == uid) =
      (idUser d).any (fun q => q.1 == k && q.2 == uid) :=
  any_pair d.tasks uid k

theorem patchStep_acc (uid : Nat) (fetched : List Task) (completed : Bool) :
    ∀ (d : DB) (n : Nat) (i : Int),
      patchStep uid fetched completed (d, n) i =
        ((patchStep uid fetched completed (d, 0) i).1,
         n + (patchStep uid fetched completed (d, 0) i).2) := by
  intro d n i
  unfold patchStep
  cases h : fetched.find? (fun t => (t.id : Int) == i) <;> simp

theorem patchFold_count (uid : Nat) (completed : Bool) (db0 : DB)
    (fetched : List Task)
    (hsub : ∀ t0 ∈ fetched, t0 ∈ db0.tasks ∧ t0.user_id = uid) :
    ∀ (l : List Int) (d : DB), (∀ i ∈ l, 0 < i) → idUser d = idUser db0 →
      (l.foldl (patchStep uid fetched completed) (d, 0)).2 =
        l.countP (fun i => fetched.any (fun t => (t.id : Int) == i)) := by
  intro l
  induction l with
  | nil =>
    intro d _ _
    simp
  | cons i rest ih =>
    intro d hpos hid
    rw [List.foldl_cons]
    cases hf : fetched.find? (fun t => (t.id : Int) == i) with
    | none =>
      have hstep : patchStep uid fetched completed (d, 0) i = (d, 0) := by
        simp [patchStep, hf]
      rw [hstep, ih d (fun j hj => hpos j (List.mem_cons_of_mem _ hj)) hid]
      have hpred : (fetched.any (fun t => (t.id : Int) == i)) = false := by
        rw [List.any_eq_false]
        exact List.find?_eq_none.mp hf
      rw [List.countP_cons_of_neg]
      rw [hpred]
      simp
    | some t0 =>
      have hp0 := List.find?_some hf
      have hp : ((t0.id : Int) == i) = true := hp0
      have hmem : t0 ∈ fetched := List.mem_of_find?_eq_some hf
      obtain ⟨hmem0, huid⟩ := hsub t0 hmem
      have hi : 0 < i := hpos i (List.mem_cons_self _ _)
      have hid0 : (t0.id : Int) = i := beq_iff_eq.mp hp
      have htid : t0.id = i.toNat := by omega
      have hhit : d.tasks.any (fun t => t.id == i.toNat && t.user_id == uid) = true := by
        rw [any_id_user, hid, ← any_id_user]
        exact List.any_eq_true.mpr ⟨t0, hmem0, by simp [htid, huid]⟩
      have hstep : patchStep uid fetched completed (d, 0) i =
          ((updateTask d i.toNat uid t0.text (some t0.priority) (some t0.due_date)
              (some t0.category) (some completed)).1, 1) := by
        unfold patchStep
        rw [hf]
        have h2 : (updateTask d i.toNat uid t0.text (some t0.priority)
            (some t0.due_date) (some t0.category) (some completed)).2 = true := hhit
        show ((updateTask d i.toNat uid t0.text (some t0.priority) (some t0.due_date)
            (some t0.category) (some completed)).1,
          0 + boolNat (updateTask d i.toNat uid t0.text (some t0.priority)
            (some t0.due_date) (some t0.category) (some completed)).2) = _
        rw [h2]
        rfl
      rw [hstep]
      have hR := foldl_acc_add (patchStep uid fetched completed)
        (patchStep_acc uid fetched completed) rest
        (updateTask d i.toNat uid t0.text (some t0.priority) (some t0.due_date)
          (some t0.category) (some completed)).1 1
      rw [hR, ih _ (fun j hj => hpos j (List.mem_cons_of_mem _ hj))
        (by rw [idUser_update]; exact hid)]
      rw [List.countP_cons_of_pos]
      · omega
      · exact List.any_eq_true.mpr ⟨t0, hmem, hp⟩


theorem mem_getAllTasks_user (db : DB) (uid : Nat) (search cat : Option String)
    (sortBy : String) (t : Task) (h : t ∈ getAllTasks db uid search cat sortBy) :
    t ∈ db.tasks ∧ t.user_id = uid := by
  obtain ⟨h1, h2⟩ := mem_getAllTasks_sub db uid search cat sortBy t h
  refine ⟨h1, ?_⟩
  unfold taskFilter at h2
  simp only [Bool.and_eq_true, beq_iff_eq] at h2
  exact h2.1.1

/-- C5 (amended): for a validated bulk mutation, DELETE /tasks reports the
number of distinct valid (positive integer) ids that name an existing task
owned by the caller — duplicate entries are counted once, because the second
delete of the same id affects no row — while PATCH /tasks reports the number
of entries, with multiplicity, whose id names a task present in the
pre-fetched (user-scoped, capped) task list; invalid entries are never
counted by either route. -/
theorem C5_bulk_counts (db : DB) (uid : Nat) (ids : List Int) (completed : Bool)
    (hne : ids ≠ []) (hval : ids.filter (fun i => 0 < i) ≠ []) :
    (bulkDeleteByIds db uid ids).2 =
      .okDeleted (expectedDeleted db uid (ids.filter (fun i => 0 < i))) ∧
    (bulkPatchByIds db uid ids completed).2 =
      .okUpdated ((ids.filter (fun i => 0 < i)).countP
        (fun i => (getAllTasks db uid none none "priority").any
          (fun t => (t.id : Int) == i))) := by
  have hpos : ∀ i ∈ ids.filter (fun i => 0 < i), 0 < i := by
    intro i hi
    have := List.of_mem_filter hi
    simpa using this
  constructor
  · simp only [bulkDeleteByIds]
    rw [if_neg hne, if_neg hval]
    rw [delFold_count uid (ids.filter (fun i => 0 < i)).length _ le_rfl hpos db]
  · simp only [bulkPatchByIds]
    rw [if_neg hne, if_neg hval]
    rw [patchFold_count uid completed db (getAllTasks db uid none none "priority")
      (fun t0 ht0 => mem_getAllTasks_user db uid none none "priority" t0 ht0)
      (ids.filter (fun i => 0 < i)) db hpos rfl]

theorem C5_bulk_counts_witness :
    ([(1 : Int), 5] ≠ []) ∧ (([(1 : Int), 5].filter (fun i => 0 < i)) ≠ []) ∧
      ((bulkDeleteByIds dbAB 1 [1, 5]).2 =
        .okDeleted (expectedDeleted dbAB 1 ([(1 : Int), 5].filter (fun i => 0 < i))) ∧
      (bulkPatchByIds dbAB 1 [1, 5] true).2 =
        .okUpdated (([(1 : Int), 5].filter (fun i => 0 < i)).countP
          (fun i => (getAllTasks dbAB 1 none none "priority").any
            (fun t => (t.id : Int) == i)))) :=
  ⟨by decide, by decide, C5_bulk_counts dbAB 1 [1, 5] true (by decide) (by decide)⟩

/-- C5 counterexample to the claim as stated: with a single stored task of
id 1 owned by user 1, the request DELETE /tasks with ids [1, 1] reports
deleted 1, but both entries are valid positive integers naming an existing
owned task, so the per-entry count the claim asks for is 2. -/
theorem C5_counterexample :
    (bulkDeleteByIds dbAB 1 [1, 1]).2 = .okDeleted 1 ∧
      ([(1 : Int), 1].countP (fun i => decide (0 < i) && ownedIn dbAB 1 i)) = 2 ∧
      (1 : Nat) ≠ 2 := by
  refine ⟨by decide, by decide, by decide⟩


/-- The invariant text property: trimmed, non-empty, at most 200 characters. -/
def goodText (s : String) : Prop := jsTrim s = s ∧ s ≠ "" ∧ s.length ≤ 200

/-- Every stored task text satisfies the invariant. -/
def TextInv (db : DB) : Prop := ∀ t ∈ db.tasks, goodText t.text

theorem goodText_of_validate (t : String) (h : validateTextStr t = []) :
    goodText (jsTrim t) := by
  unfold validateTextStr at h
  by_cases h1 : t = ""
  · rw [if_pos h1] at h; simp at h
  · rw [if_neg h1] at h
    by_cases h2 : jsTrim t = ""
    · rw [if_pos h2] at h; simp at h
    · rw [if_neg h2] at h
      by_cases h3 : (jsTrim t).length > 200
      · rw [if_pos h3] at h; simp at h
      · exact ⟨jsTrim_idem t, h2, by omega⟩

theorem validateText_some (text : Option String) (h : validateText text = []) :
    ∃ s, text = some s ∧ validateTextStr s = [] := by
  cases text with
  | none => simp [validateText] at h
  | some s => exact ⟨s, rfl, h⟩

theorem postValidate_text (dateOk : String → Bool) (text priority : Option String)
    (due_date category : Option (Option String))
    (h : postValidate dateOk text priority due_date category = []) :
    validateText text = [] := by
  unfold postValidate at h
  rcases List.append_eq_nil.mp h with ⟨h3, _⟩
  rcases List.append_eq_nil.mp h3 with ⟨h4, _⟩
  rcases List.append_eq_nil.mp h4 with ⟨h5, _⟩
  exact h5

theorem putValidate_text (dateOk : String → Bool) (taskText priority : Option String)
    (due_date category : Option (Option String))
    (h : putValidate dateOk taskText priority due_date category = []) :
    validateText taskText = [] := by
  unfold putValidate at h
  rcases List.append_eq_nil.mp h with ⟨h3, _⟩
  rcases List.append_eq_nil.mp h3 with ⟨h4, _⟩
  rcases List.append_eq_nil.mp h4 with ⟨h5, _⟩
  exact h5

theorem textInv_updateTask (db : DB) (id uid : Nat) (txt : String)
    (p : Option String) (dd c : Option (Option String)) (cpl : Option Bool)
    (hinv : TextInv db) (hg : goodText txt) :
    TextInv (updateTask db id uid txt p dd c cpl).1 := by
  intro t ht
  unfold updateTask at ht
  simp only [List.mem_map] at ht
  obtain ⟨u, hu, he⟩ := ht
  rw [← he]
  by_cases hc : (u.id == id && u.user_id == uid) = true
  · rw [if_pos hc]
    exact hg
  · rw [if_neg hc]
    exact hinv u hu

theorem textInv_toggle (db : DB) (id uid : Nat) (hinv : TextInv db) :
    TextInv (toggleTaskCompletion db id uid).1 := by
  intro t ht
  unfold toggleTaskCompletion at ht
  simp only [List.mem_map] at ht
  obtain ⟨u, hu, he⟩ := ht
  rw [← he]
  by_cases hc : (u.id == id && u.user_id == uid) = true
  · rw [if_pos hc]
    exact hinv u hu
  · rw [if_neg hc]
    exact hinv u hu

theorem textInv_delete (db : DB) (id uid : Nat) (hinv : TextInv db) :
    TextInv (deleteTask db id uid).1 := by
  intro t ht
  unfold deleteTask at ht
  exact hinv t (List.mem_of_mem_filter ht)

theorem textInv_addTask (db : DB) (txt : String) (uid : Nat) (p : String)
    (dd cat : Option String) (hinv : TextInv db) (hg : goodText txt) :
    TextInv (addTask db txt uid p dd cat).1 := by
  intro t ht
  simp only [addTask, List.mem_append, List.mem_singleton] at ht
  rcases ht with h | h
  · exact hinv t h
  · rw [h]
    exact hg

theorem textInv_reorder (db : DB) (orders : List (Int × Int)) (hinv : TextInv db) :
    TextInv (reorderTasks db orders) := by
  intro t ht
  rw [reorderTasks_eq_map] at ht
  simp only [List.mem_map] at ht
  obtain ⟨u, hu, he⟩ := ht
  rw [← he, (applyOrders_id orders u).2.1]
  exact hinv u hu

theorem textInv_foldl {α : Type} (step : DB × Nat → α → DB × Nat)
    (hstep : ∀ p a, TextInv p.1 → TextInv (step p a).1) :
    ∀ (l : List α) (p : DB × Nat), TextInv p.1 → TextInv (l.foldl step p).1 := by
  intro l
  induction l with
  | nil => intro p h; exact h
  | cons a l ih => intro p h; exact ih (step p a) (hstep p a h)

theorem textInv_postTask (dateOk : String → Bool) (db : DB) (uid : Nat)
    (text priority : Option String) (due_date category : Option (Option String))
    (hinv : TextInv db) :
    TextInv (postTask dateOk db uid text priority due_date category).1 := by
  by_cases h : postValidate dateOk text priority due_date category = []
  · obtain ⟨s, hs, hvs⟩ := validateText_some text (postValidate_text _ _ _ _ _ h)
    have hgood := goodText_of_validate s hvs
    simp only [postTask]
    rw [if_pos h, hs]
    exact textInv_addTask db (jsTrim s) uid _ _ _ hinv hgood
  · simp only [postTask]
    rw [if_neg h]
    exact hinv

theorem textInv_putTaskById (dateOk : String → Bool) (db : DB) (uid id : Nat)
    (text task priority : Option String) (due_date category : Option (Option String))
    (completed : Option Bool) (hinv : TextInv db) :
    TextInv (putTaskById dateOk db uid id text task priority due_date category completed).1 := by
  by_cases h : putValidate dateOk (jsOr text task) priority due_date category = []
  · obtain ⟨s, hs, hvs⟩ := validateText_some _ (putValidate_text _ _ _ _ _ h)
    have hgood := goodText_of_validate s hvs
    simp only [putTaskById]
    rw [if_pos h, hs]
    split
    · exact textInv_updateTask db id uid (jsTrim s) _ _ _ _ hinv hgood
    · exact textInv_updateTask db id uid (jsTrim s) _ _ _ _ hinv hgood
  · simp only [putTaskById]
    rw [if_neg h]
    exact hinv

theorem textInv_patchTaskById (db : DB) (uid id : Nat) (completed : Option Bool)
    (hinv : TextInv db) :
    TextInv (patchTaskById db uid id completed).1 := by
  cases completed with
  | none =>
    simp only [patchTaskById]
    split
    · exact textInv_toggle db id uid hinv
    · exact textInv_toggle db id uid hinv
  | some b =>
    cases hf : (getAllTasks db uid none none "priority").find? (fun t => t.id == id) with
    | none =>
      simp only [patchTaskById, hf]
      exact hinv
    | some t0 =>
      have hmem := List.mem_of_find?_eq_some hf
      have hg := hinv t0 (mem_getAllTasks_user db uid none none "priority" t0 hmem).1
      simp only [patchTaskById, hf]
      split
      · exact textInv_updateTask db id uid t0.text _ _ _ _ hinv hg
      · exact textInv_updateTask db id uid t0.text _ _ _ _ hinv hg

theorem textInv_putTaskByIndex (dateOk : String → Bool) (db : DB) (uid idx : Nat)
    (text task priority : Option String) (due_date category : Option (Option String))
    (completed : Option Bool) (hinv : TextInv db) :
    TextInv (putTaskByIndex dateOk db uid idx text task priority due_date category completed).1 := by
  by_cases hidx : idx < (getAllTasks db uid none none "priority").length
  · by_cases h : putValidate dateOk (jsOr text task) priority due_date category = []
    · obtain ⟨s, hs, hvs⟩ := validateText_some _ (putValidate_text _ _ _ _ _ h)
      have hgood := goodText_of_validate s hvs
      simp only [putTaskByIndex]
      rw [dif_pos hidx, if_pos h, hs]
      split
      · exact textInv_updateTask db _ uid (jsTrim s) _ _ _ _ hinv hgood
      · exact textInv_updateTask db _ uid (jsTrim s) _ _ _ _ hinv hgood
    · simp only [putTaskByIndex]
      rw [dif_pos hidx, if_neg h]
      exact hinv
  · simp only [putTaskByIndex]
    rw [dif_neg hidx]
    exact hinv

theorem textInv_toggleTaskByIndex (db : DB) (uid idx : Nat) (hinv : TextInv db) :
    TextInv (toggleTaskByIndex db uid idx).1 := by
  by_cases hidx : idx < (getAllTasks db uid none none "priority").length
  · simp only [toggleTaskByIndex]
    rw [dif_pos hidx]
    split
    · exact textInv_toggle db _ uid hinv
    · exact textInv_toggle db _ uid hinv
  · simp only [toggleTaskByIndex]
    rw [dif_neg hidx]
    exact hinv

theorem textInv_deleteTaskByIndex (db : DB) (uid idx : Nat) (hinv : TextInv db) :
    TextInv (deleteTaskByIndex db uid idx).1 := by
  by_cases hidx : idx < (getAllTasks db uid none none "priority").length
  · simp only [deleteTaskByIndex]
    rw [dif_pos hidx]
    split
    · exact textInv_delete db _ uid hinv
    · exact textInv_delete db _ uid hinv
  · simp only [deleteTaskByIndex]
    rw [dif_neg hidx]
    exact hinv

theorem textInv_deleteTaskById (db : DB) (uid id : Nat) (hinv : TextInv db) :
    TextInv (deleteTaskById db uid id).1 := by
  simp only [deleteTaskById]
  split
  · exact textInv_delete db id uid hinv
  · exact textInv_delete db id uid hinv

theorem textInv_bulkDeleteByIndices (db : DB) (uid : Nat) (indices : List Int)
    (hinv : TextInv db) :
    TextInv (bulkDeleteByIndices db uid indices).1 := by
  simp only [bulkDeleteByIndices]
  split
  · exact hinv
  · split
    · exact hinv
    · refine textInv_foldl _ ?_ _ _ hinv
      intro p a hp
      cases hg : (getAllTasks db uid none none "priority").get? a.toNat with
      | none => simpa only [hg] using hp
      | some t0 =>
        simp only [hg]
        exact textInv_delete p.1 t0.id uid hp

theorem textInv_bulkCompleteByIndices (db : DB) (uid : Nat) (indices : List Int)
    (completed : Bool) (hinv : TextInv db) :
    TextInv (bulkCompleteByIndices db uid indices completed).1 := by
  simp only [bulkCompleteByIndices]
  split
  · exact hinv
  · split
    · exact hinv
    · refine textInv_foldl _ ?_ _ _ hinv
      intro p a hp
      cases hg : (getAllTasks db uid none none "priority").get? a.toNat with
      | none => simpa only [hg] using hp
      | some t0 =>
        have hmem : t0 ∈ getAllTasks db uid none none "priority" := List.get?_mem hg
        have hgt := hinv t0 (mem_getAllTasks_user db uid none none "priority" t0 hmem).1
        simp only [hg]
        exact textInv_updateTask p.1 t0.id uid t0.text _ _ _ _ hp hgt

theorem textInv_bulkDeleteByIds (db : DB) (uid : Nat) (ids : List Int)
    (hinv : TextInv db) :
    TextInv (bulkDeleteByIds db uid ids).1 := by
  simp only [bulkDeleteByIds]
  split
  · exact hinv
  · split
    · exact hinv
    · refine textInv_foldl _ ?_ _ _ hinv
      intro p a hp
      exact textInv_delete p.1 a.toNat uid hp

theorem textInv_bulkPatchByIds (db : DB) (uid : Nat) (ids : List Int)
    (completed : Bool) (hinv : TextInv db) :
    TextInv (bulkPatchByIds db uid ids completed).1 := by
  simp only [bulkPatchByIds]
  split
  · exact hinv
  · split
    · exact hinv
    · refine textInv_foldl _ ?_ _ _ hinv
      intro p a hp
      unfold patchStep
      cases hg : (getAllTasks db uid none none "priority").find? (fun t => (t.id : Int) == a) with
      | none => simpa only [hg] using hp
      | some t0 =>
        have hmem := List.mem_of_find?_eq_some hg
        have hgt := hinv t0 (mem_getAllTasks_user db uid none none "priority" t0 hmem).1
        simp only [hg]
        exact textInv_updateTask p.1 a.toNat uid t0.text _ _ _ _ hp hgt

theorem textInv_reorderHandler (db : DB) (orders : List (Int × Int))
    (hinv : TextInv db) :
    TextInv (reorderHandler db orders).1 := by
  simp only [reorderHandler]
  split
  · exact hinv
  · exact textInv_reorder db orders hinv

theorem textInv_applyOp (dateOk : String → Bool) (db : DB) (op : Op)
    (h : TextInv db) : TextInv (applyOp dateOk db op) := by
  cases op with
  | create uid text priority due_date category =>
    exact textInv_postTask dateOk db uid text priority due_date category h
  | putId uid id text task priority due_date category completed =>
    exact textInv_putTaskById dateOk db uid id text task priority due_date category completed h
  | patchId uid id completed => exact textInv_patchTaskById db uid id completed h
  | putIndex uid idx text task priority due_date category completed =>
    exact textInv_putTaskByIndex dateOk db uid idx text task priority due_date category completed h
  | toggleIndex uid idx => exact textInv_toggleTaskByIndex db uid idx h
  | deleteIndex uid idx => exact textInv_deleteTaskByIndex db uid idx h
  | bulkDeleteIdx uid indices => exact textInv_bulkDeleteByIndices db uid indices h
  | bulkCompleteIdx uid indices c => exact textInv_bulkCompleteByIndices db uid indices c h
  | deleteId uid id => exact textInv_deleteTaskById db uid id h
  | bulkDeleteIds uid ids => exact textInv_bulkDeleteByIds db uid ids h
  | bulkPatchIds uid ids c => exact textInv_bulkPatchByIds db uid ids c h
  | reorder orders => exact textInv_reorderHandler db orders h

/-- C10: starting from an empty store, after any sequence of mutating API
requests every stored task text is already trimmed (no leading or trailing
whitespace), non-empty, and at most 200 characters long: creation and both
update routes store the validated trimmed text, and every other mutating
operation either rewrites a stored (hence already good) text or leaves texts
unchanged. -/
theorem C10_stored_text_invariant (dateOk : String → Bool) (ops : List Op)
    (t : Task) (hmem : t ∈ (applyOps dateOk ops).tasks) :
    jsTrim t.text = t.text ∧ t.text ≠ "" ∧ t.text.length ≤ 200 := by
  have hinv : TextInv (applyOps dateOk ops) := by
    unfold applyOps
    have hall : ∀ (l : List Op) (d : DB), TextInv d → TextInv (l.foldl (applyOp dateOk) d) := by
      intro l
      induction l with
      | nil => intro d h; exact h
      | cons o l ih => intro d h; exact ih _ (textInv_applyOp dateOk d o h)
    refine hall ops DB.init ?_
    intro u hu
    simp [DB.init] at hu
  exact hinv t hmem

theorem C10_stored_text_invariant_witness :
    ({ id := 1, text := "hi", priority := "medium", due_date := none,
       category := none, completed := false, sort_order := 1, user_id := 1,
       created_at := 1 : Task } ∈
        (applyOps (fun _ => true) [Op.create 1 (some "hi") none none none]).tasks) ∧
      (jsTrim "hi" = "hi" ∧ ("hi" : String) ≠ "" ∧ ("hi" : String).length ≤ 200) :=
  ⟨by decide,
   C10_stored_text_invariant (fun _ => true) [Op.create 1 (some "hi") none none none]
     { id := 1, text := "hi", priority := "medium", due_date := none,
       category := none, completed := false, sort_order := 1, user_id := 1,
       created_at := 1 } (by decide)⟩


theorem C3_reorder_independent_updates_witness :
    (reorderTasks dbAB [(1, 10), (99, 20)]).tasks =
        dbAB.tasks.map (applyOrders [(1, 10), (99, 20)]) ∧
      (reorderTasks dbAB [(1, 10), (99, 20)]).nextId = dbAB.nextId ∧
      (∀ t, (applyOrders [(1, 10), (99, 20)] t).id = t.id ∧
        (applyOrders [(1, 10), (99, 20)] t).text = t.text ∧
        (applyOrders [(1, 10), (99, 20)] t).user_id = t.user_id ∧
        (applyOrders [(1, 10), (99, 20)] t).completed = t.completed) ∧
      ∀ t, (∀ o ∈ [((1 : Int), (10 : Int)), (99, 20)], o.1 ≠ (t.id : Int)) →
        applyOrders [(1, 10), (99, 20)] t = t :=
  C3_reorder_independent_updates dbAB [(1, 10), (99, 20)]


end Todo
